import Mathlib

/-!
Verification of the training-loop models in `models.py` of the
NeuralNetworkFlexibility repository.

Scalars of the external `nn` computation-graph library are modelled as
rationals; its nodes (tensors) as lists of rows of rationals.  The `nn`
engine itself is an external dependency of the repository, so its
primitives (dot product, linear transform, bias add, rectification,
parameter update) are modelled from the specification's description of
the interface; the model classes and training loops are translated from
`src/models.py`.
-/

namespace NNModels

/-- A vector: one row of rational scalars. -/
abbrev Vec := List ℚ

/-- A matrix (an `nn` node or parameter): a list of rows. -/
abbrev Mat := List Vec

/-- Modelled from the spec: `nn.DotProduct` of the external nn library,
the dot product of two vectors. -/
def dotProduct (a b : Vec) : ℚ := (List.zipWith (· * ·) a b).sum

/-- Scale a vector by a scalar. -/
def scaleVec (s : ℚ) (v : Vec) : Vec := v.map (fun a => s * a)

/-- Elementwise vector addition. -/
def vecAdd (a b : Vec) : Vec := List.zipWith (· + ·) a b

/-- Modelled from the spec: `nn.Parameter.update` of the external nn
library, vector form — "given a direction d and a scalar step size s,
mutates the parameter to parameter + s * d". -/
def updateVec (p d : Vec) (s : ℚ) : Vec := vecAdd p (scaleVec s d)

/-- Number of columns of a matrix, read off its first row (the shape the
external library would report for a rectangular tensor). -/
def numCols (B : Mat) : ℕ := (B.headD []).length

/-- Column `j` of a matrix. -/
def colAt (B : Mat) (j : ℕ) : Vec := B.map (fun r => r.getD j 0)

/-- Modelled from the spec: `nn.Linear(A, B)`, matrix product of an
`m × n` input batch with an `n × p` weight matrix. -/
def matMul (A B : Mat) : Mat :=
  A.map (fun row => (List.range (numCols B)).map (fun j => dotProduct row (colAt B j)))

/-- Modelled from the spec: `nn.ReLU`, elementwise rectification. -/
def reluM (A : Mat) : Mat := A.map (fun r => r.map (fun a => max a 0))

/-- Modelled from the spec: `nn.Add`, elementwise matrix addition. -/
def addMat (A B : Mat) : Mat := List.zipWith vecAdd A B

/-- Scale a matrix by a scalar. -/
def smulMat (s : ℚ) (A : Mat) : Mat := A.map (scaleVec s)

/-- Modelled from the spec: `nn.Parameter.update`, matrix form —
"parameter := parameter + s * d". -/
def updateMat (p d : Mat) (s : ℚ) : Mat := addMat p (smulMat s d)

/-- Modelled from the spec: `nn.AddBias(A, b)`, adding a `1 × p` bias row
to every row of `A`. -/
def addBias (A : Mat) (b : Mat) : Mat := A.map (fun r => vecAdd r (b.headD []))

/-- `A` is an `m × p` matrix: `m` rows, each of length `p`. -/
def isMat (m p : ℕ) (A : Mat) : Prop := A.length = m ∧ ∀ r ∈ A, r.length = p

instance (m p : ℕ) (A : Mat) : Decidable (isMat m p A) := by
  unfold isMat; infer_instance

/-! ## PerceptronModel (`src/models.py` lines 3–54) -/

/-- `PerceptronModel.run(x)`: the score `nn.DotProduct(self.w, x)`. -/
def perceptronRun (w x : Vec) : ℚ := dotProduct w x

/-- `PerceptronModel.get_prediction(x)`: `1` if the score is `>= 0.0`,
else `-1`. -/
def perceptronPrediction (w x : Vec) : ℚ :=
  if 0 ≤ perceptronRun w x then 1 else -1

/-- A perceptron training sample: a feature vector `x` together with the
scalar label `nn.as_scalar(y)`. -/
abbrev PSample := Vec × ℚ

/-- The body of the `for x, y in dataset.iterate_once(1)` loop in
`PerceptronModel.train`: if the label disagrees with the prediction,
clear the `outcome` flag and apply `self.w.update(x, nn.as_scalar(y))`;
otherwise leave the state alone. -/
def passStep (st : Vec × Bool) (s : PSample) : Vec × Bool :=
  if s.2 ≠ perceptronPrediction st.1 s.1 then (updateVec st.1 s.1 s.2, false) else st

/-- One full pass of `PerceptronModel.train` over the dataset, starting
with `outcome = True`. -/
def trainPass (w : Vec) (ds : List PSample) : Vec × Bool :=
  ds.foldl passStep (w, true)

/-- `PerceptronModel.train`, with explicit fuel bounding the number of
full passes of the unbounded `while True` loop; `none` means the loop
has not yet terminated within the fuel. -/
def perceptronTrain : ℕ → Vec → List PSample → Option Vec
  | 0, _, _ => none
  | n + 1, w, ds =>
    let r := trainPass w ds
    if r.2 then some r.1 else perceptronTrain n r.1 ds

lemma passStep_false (ds : List PSample) (w : Vec) :
    (ds.foldl passStep (w, false)).2 = false := by
  induction ds generalizing w with
  | nil => rfl
  | cons s ds ih =>
    by_cases h : s.2 ≠ perceptronPrediction w s.1
    · simp only [List.foldl_cons, passStep, if_pos h]
      exact ih _
    · simp only [List.foldl_cons, passStep, if_neg h]
      exact ih _

lemma trainPass_correct_all (w : Vec) :
    ∀ ds : List PSample, (∀ s ∈ ds, s.2 = perceptronPrediction w s.1) →
      trainPass w ds = (w, true) := by
  intro ds
  unfold trainPass
  induction ds with
  | nil => intro _; rfl
  | cons s ds ih =>
    intro hall
    have hs : s.2 = perceptronPrediction w s.1 := hall s (by simp)
    simp only [List.foldl_cons, passStep]
    rw [if_neg (not_not_intro hs)]
    exact ih (fun t ht => hall t (List.mem_cons_of_mem _ ht))

lemma trainPass_true_iff (w : Vec) (ds : List PSample) :
    (trainPass w ds).2 = true ↔ ∀ s ∈ ds, s.2 = perceptronPrediction w s.1 := by
  constructor
  · unfold trainPass
    induction ds with
    | nil => intro _ s hs; exact absurd hs (by simp)
    | cons s ds ih =>
      intro h t ht
      by_cases hs : s.2 = perceptronPrediction w s.1
      · rw [List.foldl_cons, passStep, if_neg (not_not_intro hs)] at h
        rcases List.mem_cons.mp ht with rfl | ht
        · exact hs
        · exact ih h t ht
      · rw [List.foldl_cons, passStep, if_pos hs, passStep_false] at h
        exact absurd h (by simp)
  · intro hall
    rw [trainPass_correct_all w ds hall]

lemma trainPass_true_weights (w : Vec) (ds : List PSample)
    (h : (trainPass w ds).2 = true) : (trainPass w ds).1 = w := by
  rw [trainPass_correct_all w ds ((trainPass_true_iff w ds).mp h)]

/-- Claim C1: `PerceptronModel.train` iterates the dataset one sample at
a time; a correctly classified sample leaves the state unchanged; a
misclassified sample clears the `outcome` flag and updates the weights
by `w := w + y * x`; the `outcome` flag of a full pass is `true` exactly
when the pass produced zero misclassifications (in which case the
weights are unchanged); and the `while True` loop returns exactly after
such a pass, otherwise it continues with the updated weights. -/
theorem perceptron_train_spec :
    (∀ (w : Vec) (b : Bool) (x : Vec) (y : ℚ), y = perceptronPrediction w x →
        passStep (w, b) (x, y) = (w, b)) ∧
    (∀ (w : Vec) (b : Bool) (x : Vec) (y : ℚ), y ≠ perceptronPrediction w x →
        passStep (w, b) (x, y) = (vecAdd w (scaleVec y x), false)) ∧
    (∀ (w : Vec) (ds : List PSample),
        (trainPass w ds).2 = true ↔ ∀ s ∈ ds, s.2 = perceptronPrediction w s.1) ∧
    (∀ (w : Vec) (ds : List PSample), (trainPass w ds).2 = true →
        (trainPass w ds).1 = w) ∧
    (∀ (n : ℕ) (w : Vec) (ds : List PSample), (trainPass w ds).2 = true →
        perceptronTrain (n + 1) w ds = some w) ∧
    (∀ (n : ℕ) (w : Vec) (ds : List PSample), (trainPass w ds).2 = false →
        perceptronTrain (n + 1) w ds = perceptronTrain n (trainPass w ds).1 ds) := by
  refine ⟨?_, ?_, trainPass_true_iff, trainPass_true_weights, ?_, ?_⟩
  · intro w b x y h
    simp [passStep, h]
  · intro w b x y h
    simp [passStep, h, updateVec]
  · intro n w ds h
    rw [perceptronTrain, if_pos h, trainPass_true_weights w ds h]
  · intro n w ds h
    rw [perceptronTrain, if_neg (by simp [h])]

/-- Witness for C1 at concrete inputs: with weights `[1]` the dataset
`[([1], 1)]` is fully correctly classified, so the loop returns the
weights unchanged; with weights `[-1]` the same sample is misclassified
and the sample update adds `y * x`. -/
theorem perceptron_train_spec_witness :
    perceptronTrain 1 [(1 : ℚ)] [([(1 : ℚ)], (1 : ℚ))] = some [(1 : ℚ)] ∧
    passStep ([(-1 : ℚ)], true) ([(1 : ℚ)], (1 : ℚ)) =
      (vecAdd [(-1 : ℚ)] (scaleVec 1 [(1 : ℚ)]), false) := by
  constructor
  · exact perceptron_train_spec.2.2.2.2.1 0 _ _
      (by norm_num [trainPass, passStep, perceptronPrediction, perceptronRun, dotProduct])
  · exact perceptron_train_spec.2.1 _ _ _ _
      (by norm_num [perceptronPrediction, perceptronRun, dotProduct])

/-- Claim C2: `PerceptronModel.get_prediction(x)` returns `+1` iff the
score `run(x)` is `≥ 0`, returns `-1` otherwise, and always returns
exactly one of `+1` and `-1`. -/
theorem perceptron_prediction_spec (w x : Vec) :
    (perceptronPrediction w x = 1 ↔ 0 ≤ perceptronRun w x) ∧
    (perceptronPrediction w x = -1 ↔ ¬ 0 ≤ perceptronRun w x) ∧
    (perceptronPrediction w x = 1 ∨ perceptronPrediction w x = -1) := by
  unfold perceptronPrediction
  by_cases h : 0 ≤ perceptronRun w x
  · rw [if_pos h]
    refine ⟨by simp [h], ?_, Or.inl rfl⟩
    constructor
    · intro h1; exact absurd h1 (by norm_num)
    · intro h2; exact absurd h h2
  · rw [if_neg h]
    refine ⟨?_, by simp [h], Or.inr rfl⟩
    constructor
    · intro h1; exact absurd h1 (by norm_num)
    · intro h2; exact absurd h2 h

/-! ## RegressionModel (`src/models.py` lines 58–110) -/

/-- The four trainable parameters of `RegressionModel` (and, with other
initial shapes, of `DigitClassificationModel`). -/
structure RegParams where
  weight1 : Mat
  bias1 : Mat
  weight2 : Mat
  bias2 : Mat
  deriving DecidableEq

/-- A training batch: an input node `x` and a label node `y`. -/
abbrev Batch := Mat × Mat

/-- `RegressionModel.__init__`: `self.learning_rate = -0.02`. -/
def regLearningRate : ℚ := -0.02

/-- `RegressionModel.run(x)`: the two-layer network
`AddBias(Linear(ReLU(AddBias(Linear(x, w1), b1)), w2), b2)`. -/
def regRun (p : RegParams) (x : Mat) : Mat :=
  addBias (matMul (reluM (addBias (matMul x p.weight1) p.bias1)) p.weight2) p.bias2

/-- The body of the inner `for x, y in dataset.iterate_once(10)` loop of
`RegressionModel.train`: query `nn.gradients` for the parameter list
`[weight1, weight2, bias1, bias2]` and update `weight1` with
`gradients[0]`, `weight2` with `gradients[1]`, `bias1` with
`gradients[2]`, `bias2` with `gradients[3]`, each scaled by the learning
rate.  The gradient oracle `g` stands for the external
`nn.gradients(loss, [weight1, weight2, bias1, bias2])` call. -/
def regBatchStep (g : RegParams → Batch → List Mat) (p : RegParams) (b : Batch) :
    RegParams :=
  let gs := g p b
  { weight1 := updateMat p.weight1 (gs.getD 0 []) regLearningRate
    weight2 := updateMat p.weight2 (gs.getD 1 []) regLearningRate
    bias1 := updateMat p.bias1 (gs.getD 2 []) regLearningRate
    bias2 := updateMat p.bias2 (gs.getD 3 []) regLearningRate }

/-- One epoch of `RegressionModel.train`: a full pass over the batches
produced by `dataset.iterate_once(10)`. -/
def regEpoch (g : RegParams → Batch → List Mat) (bs : List Batch) (p : RegParams) :
    RegParams :=
  bs.foldl (regBatchStep g) p

/-- The `for i in range(1000)` loop of `RegressionModel.train`, by
recursion on the remaining iteration count. -/
def regTrainAux (g : RegParams → Batch → List Mat) (bs : List Batch) :
    ℕ → RegParams → RegParams
  | 0, p => p
  | n + 1, p => regTrainAux g bs n (regEpoch g bs p)

/-- `RegressionModel.train(dataset)`: 1000 epochs over
`dataset.iterate_once(10)`.  The dataset is modelled by the family
`ds : ℕ → List Batch` mapping a requested batch size to the finite
sequence of batches `iterate_once` yields. -/
def regTrain (g : RegParams → Batch → List Mat) (ds : ℕ → List Batch)
    (p : RegParams) : RegParams :=
  regTrainAux g (ds 10) 1000 p

lemma regTrainAux_iterate (g : RegParams → Batch → List Mat) (bs : List Batch) :
    ∀ (n : ℕ) (p : RegParams), regTrainAux g bs n p = (regEpoch g bs)^[n] p := by
  intro n
  induction n with
  | zero => intro p; rfl
  | succ n ih =>
    intro p
    rw [regTrainAux, ih, Function.iterate_succ_apply]

/-- Claim C3: `RegressionModel.train` executes exactly 1000 epochs over
batches of size 10, unconditionally (for every gradient oracle, dataset
and starting parameters it equals the 1000-fold iterate of one epoch,
with no early-stopping condition anywhere); each batch step updates each
of the four parameters with its own matching entry of the gradient list
queried for `[weight1, weight2, bias1, bias2]`, scaled by the fixed
learning rate `-0.02 = -1/50`. -/
theorem regression_train_spec :
    (∀ (g : RegParams → Batch → List Mat) (ds : ℕ → List Batch) (p : RegParams),
        regTrain g ds p = (regEpoch g (ds 10))^[1000] p) ∧
    (∀ (g : RegParams → Batch → List Mat) (p : RegParams) (b : Batch)
        (g1 g2 g3 g4 : Mat), g p b = [g1, g2, g3, g4] →
        regBatchStep g p b =
          { weight1 := updateMat p.weight1 g1 regLearningRate
            weight2 := updateMat p.weight2 g2 regLearningRate
            bias1 := updateMat p.bias1 g3 regLearningRate
            bias2 := updateMat p.bias2 g4 regLearningRate }) ∧
    regLearningRate = -(1 / 50) := by
  refine ⟨?_, ?_, by norm_num [regLearningRate]⟩
  · intro g ds p
    exact regTrainAux_iterate g (ds 10) 1000 p
  · intro g p b g1 g2 g3 g4 h
    simp [regBatchStep, h]

/-- Witness for C3 at a concrete input: a gradient oracle returning the
concrete list `[[[1]], [[2]], [[3]], [[4]]]` makes the batch step update
each parameter with its own gradient entry. -/
theorem regression_train_spec_witness :
    regBatchStep (fun _ _ => [[[(1 : ℚ)]], [[2]], [[3]], [[4]]])
        ⟨[[0]], [[0]], [[0]], [[0]]⟩ ([[0]], [[0]]) =
      { weight1 := updateMat [[0]] [[(1 : ℚ)]] regLearningRate
        bias1 := updateMat [[0]] [[3]] regLearningRate
        weight2 := updateMat [[0]] [[2]] regLearningRate
        bias2 := updateMat [[0]] [[4]] regLearningRate } :=
  regression_train_spec.2.1 _ _ _ _ _ _ _ rfl

/-! ## DigitClassificationModel (`src/models.py` lines 117–181) -/

/-- `DigitClassificationModel.__init__`: `self.learning_rate = -0.02`. -/
def digitLearningRate : ℚ := -0.02

/-- `DigitClassificationModel.run(x)`: the two-layer network
`AddBias(Linear(ReLU(AddBias(Linear(x, w1), b1)), w2), b2)`. -/
def digitRun (p : RegParams) (x : Mat) : Mat :=
  addBias (matMul (reluM (addBias (matMul x p.weight1) p.bias1)) p.weight2) p.bias2

/-- The body of the inner batch loop of `DigitClassificationModel.train`:
identical in structure to the regression batch step. -/
def digitBatchStep (g : RegParams → Batch → List Mat) (p : RegParams) (b : Batch) :
    RegParams :=
  let gs := g p b
  { weight1 := updateMat p.weight1 (gs.getD 0 []) digitLearningRate
    weight2 := updateMat p.weight2 (gs.getD 1 []) digitLearningRate
    bias1 := updateMat p.bias1 (gs.getD 2 []) digitLearningRate
    bias2 := updateMat p.bias2 (gs.getD 3 []) digitLearningRate }

/-- One epoch of `DigitClassificationModel.train`: a full pass over the
batches produced by `dataset.iterate_once(self.batch_size)` with
`self.batch_size = 10`. -/
def digitEpoch (g : RegParams → Batch → List Mat) (bs : List Batch) (p : RegParams) :
    RegParams :=
  bs.foldl (digitBatchStep g) p

/-- The `for i in range(2000)` loop of `DigitClassificationModel.train`,
abstracted over the epoch body `step` and the validation-accuracy query
`va` (accuracy is a function of the current parameters).  Returns the
final parameters together with the number of epochs performed. -/
def digitLoop (va : RegParams → ℚ) (step : RegParams → RegParams) :
    ℕ → RegParams → RegParams × ℕ
  | 0, p => (p, 0)
  | n + 1, p =>
    let q := step p
    if 0.97 ≤ va q then (q, 1)
    else
      let r := digitLoop va step n q
      (r.1, r.2 + 1)

/-- `DigitClassificationModel.train(dataset)`. -/
def digitTrain (g : RegParams → Batch → List Mat) (ds : ℕ → List Batch)
    (va : RegParams → ℚ) (p : RegParams) : RegParams × ℕ :=
  digitLoop va (digitEpoch g (ds 10)) 2000 p

lemma digitLoop_le (va : RegParams → ℚ) (step : RegParams → RegParams) :
    ∀ (n : ℕ) (p : RegParams), (digitLoop va step n p).2 ≤ n := by
  intro n
  induction n with
  | zero => intro p; exact Nat.le_refl 0
  | succ n ih =>
    intro p
    rw [digitLoop]
    by_cases h : (0.97 : ℚ) ≤ va (step p)
    · rw [if_pos h]
      exact Nat.succ_le_succ (Nat.zero_le n)
    · rw [if_neg h]
      exact Nat.succ_le_succ (ih (step p))

lemma digitLoop_all_below (va : RegParams → ℚ) (step : RegParams → RegParams)
    (hva : ∀ q, va q < 0.97) :
    ∀ (n : ℕ) (p : RegParams), (digitLoop va step n p).2 = n := by
  intro n
  induction n with
  | zero => intro p; rfl
  | succ n ih =>
    intro p
    rw [digitLoop, if_neg (not_le_of_lt (hva (step p)))]
    exact congrArg (· + 1) (ih (step p))

/-- Claim C4: `DigitClassificationModel.train` runs at most 2000 epochs;
it queries the validation accuracy after each full epoch, returning as
soon as it is `≥ 0.97`, continuing with the post-epoch parameters
otherwise; and when the threshold is never reached it performs the full
epoch count (in particular `digitTrain` then performs exactly 2000
epochs, never more). -/
theorem digit_train_spec :
    (∀ (g : RegParams → Batch → List Mat) (ds : ℕ → List Batch)
        (va : RegParams → ℚ) (p : RegParams), (digitTrain g ds va p).2 ≤ 2000) ∧
    (∀ (va : RegParams → ℚ) (step : RegParams → RegParams) (n : ℕ) (p : RegParams),
        0.97 ≤ va (step p) → digitLoop va step (n + 1) p = (step p, 1)) ∧
    (∀ (va : RegParams → ℚ) (step : RegParams → RegParams) (n : ℕ) (p : RegParams),
        va (step p) < 0.97 →
        digitLoop va step (n + 1) p =
          ((digitLoop va step n (step p)).1, (digitLoop va step n (step p)).2 + 1)) ∧
    (∀ (va : RegParams → ℚ) (step : RegParams → RegParams) (n : ℕ) (p : RegParams),
        (∀ q, va q < 0.97) → (digitLoop va step n p).2 = n) := by
  refine ⟨?_, ?_, ?_, fun va step n p hva => digitLoop_all_below va step hva n p⟩
  · intro g ds va p
    exact digitLoop_le va (digitEpoch g (ds 10)) 2000 p
  · intro va step n p h
    rw [digitLoop, if_pos h]
  · intro va step n p h
    rw [digitLoop, if_neg (not_le_of_lt h)]

/-- Witness for C4 at concrete inputs: with constant accuracy `1` the
loop stops after one epoch; with constant accuracy `0` it runs out the
full fuel. -/
theorem digit_train_spec_witness :
    digitLoop (fun _ => 1) id 2 ⟨[], [], [], []⟩ = (⟨[], [], [], []⟩, 1) ∧
    (digitLoop (fun _ => 0) id 2000 ⟨[], [], [], []⟩).2 = 2000 := by
  constructor
  · exact digit_train_spec.2.1 _ _ 1 _ (by norm_num)
  · exact digit_train_spec.2.2.2 _ _ 2000 _ (fun q => by norm_num)

/-! ## Shape lemmas for the matrix primitives -/

lemma numCols_of_isMat {n p : ℕ} {B : Mat} (hB : isMat n p B) (hn : 0 < n) :
    numCols B = p := by
  cases B with
  | nil => exact absurd hn (by simp [← hB.1])
  | cons r B => exact hB.2 r (List.mem_cons_self r B)

lemma isMat_matMul {m n p : ℕ} {A B : Mat} (hA : isMat m n A) (hB : isMat n p B)
    (hn : 0 < n) : isMat m p (matMul A B) := by
  constructor
  · rw [matMul, List.length_map]
    exact hA.1
  · intro r hr
    rw [matMul, List.mem_map] at hr
    obtain ⟨row, _, rfl⟩ := hr
    rw [List.length_map, List.length_range]
    exact numCols_of_isMat hB hn

lemma isMat_reluM {m p : ℕ} {A : Mat} (hA : isMat m p A) : isMat m p (reluM A) := by
  constructor
  · rw [reluM, List.length_map]
    exact hA.1
  · intro r hr
    rw [reluM, List.mem_map] at hr
    obtain ⟨row, hrow, rfl⟩ := hr
    rw [List.length_map]
    exact hA.2 row hrow

lemma length_vecAdd (a b : Vec) : (vecAdd a b).length = min a.length b.length :=
  List.length_zipWith _ _ _

lemma isMat_addMat : ∀ (A B : Mat) (m p : ℕ),
    isMat m p A → isMat m p B → isMat m p (addMat A B) := by
  intro A
  induction A with
  | nil =>
    intro B m p hA hB
    have : m = 0 := hA.1.symm
    subst this
    exact ⟨rfl, by simp [addMat]⟩
  | cons r A ih =>
    intro B m p hA hB
    cases B with
    | nil => exact absurd (hA.1.trans hB.1.symm) (by simp)
    | cons s B =>
      cases m with
      | zero => exact absurd hA.1 (by simp)
      | succ m =>
        have hrA : isMat m p A :=
          ⟨by simpa using hA.1, fun t ht => hA.2 t (List.mem_cons_of_mem _ ht)⟩
        have hsB : isMat m p B :=
          ⟨by simpa using hB.1, fun t ht => hB.2 t (List.mem_cons_of_mem _ ht)⟩
        have hrec := ih B m p hrA hsB
        constructor
        · simpa [addMat] using hrec.1
        · intro t ht
          rw [addMat, List.zipWith_cons_cons] at ht
          rcases List.mem_cons.mp ht with rfl | ht
          · rw [length_vecAdd, hA.2 r (List.mem_cons_self r A),
              hB.2 s (List.mem_cons_self s B), Nat.min_self]
          · exact hrec.2 t ht

/-! ## LanguageIDModel (`src/models.py` lines 183–276) -/

/-- The three trainable parameters of `LanguageIDModel`:
`weight : 47 × 300`, `weight_h : 300 × 300`, `weight_f : 300 × 5`. -/
structure LangParams where
  weight : Mat
  weight_h : Mat
  weight_f : Mat
  deriving DecidableEq

/-- `LanguageIDModel.__init__`: `self.learning_rate = -0.005`. -/
def langLearningRate : ℚ := -0.005

/-- The parameters created by `LanguageIDModel.__init__` are well shaped:
`nn.Parameter(47, 300)`, `nn.Parameter(300, 300)`, `nn.Parameter(300, 5)`. -/
def LangWF (p : LangParams) : Prop :=
  isMat 47 300 p.weight ∧ isMat 300 300 p.weight_h ∧ isMat 300 5 p.weight_f

/-- The body of the `for node in xs[1:]` loop of `LanguageIDModel.run`:
`ReLU(Add(Linear(node, weight), Linear(h, weight_h)))`. -/
def langStep (p : LangParams) (h node : Mat) : Mat :=
  reluM (addMat (matMul node p.weight) (matMul h p.weight_h))

/-- `LanguageIDModel.run(xs)`: the hidden state starts as
`Linear(xs[0], weight)`, is folded through the recurrence over `xs[1:]`,
and the result is `Linear(final_hidden, weight_f)`.  The `xs[0]` indexing
raises `IndexError` on an empty list, modelled by `none`. -/
def langRun (p : LangParams) (xs : List Mat) : Option Mat :=
  match xs with
  | [] => none
  | x :: rest => some (matMul (rest.foldl (langStep p) (matMul x p.weight)) p.weight_f)

/-- The spec's indexed recurrence for the hidden state: step `0` is a
linear transform of the first character with no rectification; step
`t + 1` is `ReLU(Linear(xs[t+1], weight) + Linear(h_t, weight_h))`.
Stated from the spec's words, to be compared with `langRun`. -/
def hiddenRec (p : LangParams) (xs : List Mat) : ℕ → Mat
  | 0 => matMul (xs.getD 0 []) p.weight
  | t + 1 =>
    reluM (addMat (matMul (xs.getD (t + 1) []) p.weight)
      (matMul (hiddenRec p xs t) p.weight_h))

/-- The spec's description of `LanguageIDModel.run`: a linear projection
by `weight_f` of the hidden state after the last step `L - 1`. -/
def specLangRun (p : LangParams) (xs : List Mat) : Mat :=
  matMul (hiddenRec p xs (xs.length - 1)) p.weight_f

lemma hiddenRec_append (p : LangParams) (x a : Mat) (rs : List Mat) :
    ∀ t, t ≤ rs.length → hiddenRec p (x :: (rs ++ [a])) t = hiddenRec p (x :: rs) t := by
  intro t
  induction t with
  | zero => intro _; rfl
  | succ t ih =>
    intro ht
    have htlt : t < rs.length := ht
    rw [hiddenRec, hiddenRec, ih (Nat.le_of_lt htlt), List.getD_cons_succ,
      List.getD_cons_succ, List.getD_append _ _ _ _ htlt]

lemma foldl_langStep_eq_hiddenRec (p : LangParams) (x : Mat) (rest : List Mat) :
    rest.foldl (langStep p) (matMul x p.weight) = hiddenRec p (x :: rest) rest.length := by
  induction rest using List.reverseRecOn with
  | nil => rfl
  | append_singleton rs a ih =>
    rw [List.foldl_append, List.foldl_cons, List.foldl_nil, ih, List.length_append,
      List.length_cons, List.length_nil]
    show langStep p (hiddenRec p (x :: rs) rs.length) a = _
    rw [hiddenRec, hiddenRec_append p x a rs rs.length (Nat.le_refl _),
      List.getD_cons_succ, List.getD_append_right _ _ _ _ (Nat.le_refl _),
      Nat.sub_self, langStep]
    rfl

/-- Claim C5: for every non-empty `xs`, `LanguageIDModel.run(xs)` computes
the spec's recurrence — hidden state `0` is `Linear(xs[0], weight)` with
no rectification, hidden state `t` is
`ReLU(Linear(xs[t], weight) + Linear(h_{t-1}, weight_h))` for
`1 ≤ t ≤ L - 1`, and the result is `Linear(h_{L-1}, weight_f)`. -/
theorem langid_run_recurrence (p : LangParams) (xs : List Mat) (hxs : xs ≠ []) :
    langRun p xs = some (specLangRun p xs) := by
  cases xs with
  | nil => exact absurd rfl hxs
  | cons x rest =>
    rw [langRun, specLangRun, foldl_langStep_eq_hiddenRec]
    rfl

/-- Witness for C5 at a concrete input: a one-step sequence over a
`1 × 1`-style degenerate shape. -/
theorem langid_run_recurrence_witness :
    langRun ⟨[[(1 : ℚ)]], [[1]], [[1]]⟩ [[[2]], [[3]]] =
      some (specLangRun ⟨[[(1 : ℚ)]], [[1]], [[1]]⟩ [[[2]], [[3]]]) :=
  langid_run_recurrence _ _ (List.cons_ne_nil _ _)

/-- Claim C9: `LanguageIDModel.run` has an unstated non-emptiness
precondition: on the empty list it fails immediately (the `xs[0]`
indexing raises, modelled as `none`), and on every non-empty list it
returns a node. -/
theorem langid_run_requires_nonempty :
    (∀ p : LangParams, langRun p [] = none) ∧
    (∀ (p : LangParams) (xs : List Mat), xs ≠ [] → (langRun p xs).isSome = true) := by
  refine ⟨fun p => rfl, ?_⟩
  intro p xs hxs
  cases xs with
  | nil => exact absurd rfl hxs
  | cons x rest => rfl

/-- Witness for C9 at a concrete input: the one-element sequence is
accepted. -/
theorem langid_run_requires_nonempty_witness :
    (langRun ⟨[], [], []⟩ [[[(0 : ℚ)]]]).isSome = true :=
  langid_run_requires_nonempty.2 _ _ (List.cons_ne_nil _ _)

lemma isMat_langStep {b : ℕ} {p : LangParams} {h node : Mat} (hp : LangWF p)
    (hnode : isMat b 47 node) (hh : isMat b 300 h) : isMat b 300 (langStep p h node) := by
  refine isMat_reluM (isMat_addMat _ _ _ _ ?_ ?_)
  · exact isMat_matMul hnode hp.1 (by norm_num)
  · exact isMat_matMul hh hp.2.1 (by norm_num)

lemma isMat_foldl_langStep {b : ℕ} {p : LangParams} (hp : LangWF p) :
    ∀ (rest : List Mat) (h : Mat), (∀ x ∈ rest, isMat b 47 x) → isMat b 300 h →
      isMat b 300 (rest.foldl (langStep p) h) := by
  intro rest
  induction rest with
  | nil => intro h _ hh; exact hh
  | cons node rest ih =>
    intro h hall hh
    rw [List.foldl_cons]
    exact ih _ (fun x hx => hall x (List.mem_cons_of_mem _ hx))
      (isMat_langStep hp (hall node (List.mem_cons_self _ _)) hh)

/-- Claim C7: for every non-empty list `xs` of `L ≥ 1` nodes of shape
`batch_size × 47` and well-shaped parameters, `LanguageIDModel.run(xs)`
returns a node of shape `batch_size × 5`, regardless of `L`. -/
theorem langid_run_shape (p : LangParams) (b : ℕ) (xs : List Mat) (hp : LangWF p)
    (hxs : xs ≠ []) (hall : ∀ x ∈ xs, isMat b 47 x) :
    ∃ r, langRun p xs = some r ∧ isMat b 5 r := by
  cases xs with
  | nil => exact absurd rfl hxs
  | cons x rest =>
    refine ⟨_, rfl, ?_⟩
    refine isMat_matMul ?_ hp.2.2 (by norm_num)
    exact isMat_foldl_langStep hp rest _
      (fun t ht => hall t (List.mem_cons_of_mem _ ht))
      (isMat_matMul (hall x (List.mem_cons_self _ _)) hp.1 (by norm_num))

lemma isMat_replicate (m p : ℕ) :
    isMat m p (List.replicate m (List.replicate p (0 : ℚ))) := by
  constructor
  · exact List.length_replicate m _
  · intro r hr
    rw [List.eq_of_mem_replicate hr]
    exact List.length_replicate p 0

/-- Witness for C7 at concrete inputs: zero parameters of the shapes of
`LanguageIDModel.__init__` and a single-character batch of one row. -/
theorem langid_run_shape_witness :
    ∃ r, langRun
        ⟨List.replicate 47 (List.replicate 300 (0 : ℚ)),
         List.replicate 300 (List.replicate 300 (0 : ℚ)),
         List.replicate 300 (List.replicate 5 (0 : ℚ))⟩
        [List.replicate 1 (List.replicate 47 (0 : ℚ))] = some r ∧ isMat 1 5 r :=
  langid_run_shape _ 1 _
    ⟨isMat_replicate 47 300, isMat_replicate 300 300, isMat_replicate 300 5⟩
    (List.cons_ne_nil _ _)
    (fun x hx => by rw [List.mem_singleton.mp hx]; exact isMat_replicate 1 47)

/-- A language-ID training batch: a list of character nodes `xs` and a
label node `y`. -/
abbrev LangBatch := List Mat × Mat

/-- The body of the inner `for x, y in dataset.iterate_once(self.batch_size)`
loop of `LanguageIDModel.train`: query `nn.gradients` for the parameter
list `[weight, weight_h, weight_f]` and update `weight` with
`gradients[0]`, `weight_h` with `gradients[1]`, `weight_f` with
`gradients[2]`, each scaled by the learning rate. -/
def langBatchStep (g : LangParams → LangBatch → List Mat) (p : LangParams)
    (b : LangBatch) : LangParams :=
  let gs := g p b
  { weight := updateMat p.weight (gs.getD 0 []) langLearningRate
    weight_h := updateMat p.weight_h (gs.getD 1 []) langLearningRate
    weight_f := updateMat p.weight_f (gs.getD 2 []) langLearningRate }

/-- One epoch of `LanguageIDModel.train`: a full pass over the batches
produced by `dataset.iterate_once(self.batch_size)` with
`self.batch_size = 2`. -/
def langEpoch (g : LangParams → LangBatch → List Mat) (bs : List LangBatch)
    (p : LangParams) : LangParams :=
  bs.foldl (langBatchStep g) p

/-- The unbounded `while True` loop of `LanguageIDModel.train`, with
explicit fuel bounding the number of epochs; `none` means the loop has
not yet terminated within the fuel. -/
def langLoop (va : LangParams → ℚ) (step : LangParams → LangParams) :
    ℕ → LangParams → Option LangParams
  | 0, _ => none
  | n + 1, p =>
    let q := step p
    if 0.82 ≤ va q then some q else langLoop va step n q

/-- `LanguageIDModel.train(dataset)`, with explicit fuel. -/
def langTrain (g : LangParams → LangBatch → List Mat) (ds : ℕ → List LangBatch)
    (va : LangParams → ℚ) (fuel : ℕ) (p : LangParams) : Option LangParams :=
  langLoop va (langEpoch g (ds 2)) fuel p

lemma langLoop_some_threshold (va : LangParams → ℚ) (step : LangParams → LangParams) :
    ∀ (n : ℕ) (p q : LangParams), langLoop va step n p = some q → 0.82 ≤ va q := by
  intro n
  induction n with
  | zero => intro p q h; exact absurd h (by rw [langLoop]; simp)
  | succ n ih =>
    intro p q h
    rw [langLoop] at h
    by_cases hva : (0.82 : ℚ) ≤ va (step p)
    · rw [if_pos hva] at h
      rw [← Option.some_inj.mp h]
      exact hva
    · rw [if_neg hva] at h
      exact ih (step p) q h

lemma langLoop_never (va : LangParams → ℚ) (step : LangParams → LangParams)
    (hva : ∀ q, va q < 0.82) :
    ∀ (n : ℕ) (p : LangParams), langLoop va step n p = none := by
  intro n
  induction n with
  | zero => intro p; rfl
  | succ n ih =>
    intro p
    rw [langLoop, if_neg (not_le_of_lt (hva (step p)))]
    exact ih (step p)

/-- Claim C6: `LanguageIDModel.train` uses batch size 2 and learning rate
`-0.005 = -1/200`; it checks the validation accuracy after each full
epoch, returning exactly when it first reaches `≥ 0.82` (its result
always satisfies the threshold, and when the accuracy is below the
threshold it continues with the post-epoch parameters); and when the
threshold is unreachable it never terminates (every fuel bound yields
`none`). -/
theorem langid_train_spec :
    (∀ (va : LangParams → ℚ) (step : LangParams → LangParams) (n : ℕ) (p : LangParams),
        0.82 ≤ va (step p) → langLoop va step (n + 1) p = some (step p)) ∧
    (∀ (va : LangParams → ℚ) (step : LangParams → LangParams) (n : ℕ) (p : LangParams),
        va (step p) < 0.82 → langLoop va step (n + 1) p = langLoop va step n (step p)) ∧
    (∀ (va : LangParams → ℚ) (step : LangParams → LangParams) (n : ℕ) (p q : LangParams),
        langLoop va step n p = some q → 0.82 ≤ va q) ∧
    (∀ (va : LangParams → ℚ) (step : LangParams → LangParams) (p : LangParams),
        (∀ q, va q < 0.82) → ∀ n, langLoop va step n p = none) ∧
    (∀ (g : LangParams → LangBatch → List Mat) (ds : ℕ → List LangBatch)
        (va : LangParams → ℚ) (fuel : ℕ) (p : LangParams),
        langTrain g ds va fuel p = langLoop va (langEpoch g (ds 2)) fuel p) ∧
    langLearningRate = -(1 / 200) := by
  refine ⟨?_, ?_, fun va step n p q h => langLoop_some_threshold va step n p q h,
    fun va step p hva n => langLoop_never va step hva n p,
    fun g ds va fuel p => rfl, by norm_num [langLearningRate]⟩
  · intro va step n p h
    rw [langLoop, if_pos h]
  · intro va step n p h
    rw [langLoop, if_neg (not_le_of_lt h)]

/-- Witness for C6 at concrete inputs: with constant accuracy `1` the
loop stops after the first epoch; with constant accuracy `0` it never
terminates. -/
theorem langid_train_spec_witness :
    langLoop (fun _ => 1) id 1 ⟨[], [], []⟩ = some ⟨[], [], []⟩ ∧
    langLoop (fun _ => 0) id 5 ⟨[], [], []⟩ = none := by
  constructor
  · exact langid_train_spec.1 _ _ 0 _ (by norm_num)
  · exact langid_train_spec.2.2.2.1 _ _ _ (fun q => by norm_num) 5

/-! ## Both accuracy-thresholded loops run at least one epoch (C10) -/

lemma digitLoop_iterate (va : RegParams → ℚ) (step : RegParams → RegParams) :
    ∀ (n : ℕ) (p : RegParams), ∃ k, 1 ≤ k ∧ digitLoop va step (n + 1) p = (step^[k] p, k) := by
  intro n
  induction n with
  | zero =>
    intro p
    refine ⟨1, Nat.le_refl 1, ?_⟩
    rw [digitLoop, Function.iterate_one]
    by_cases h : (0.97 : ℚ) ≤ va (step p)
    · rw [if_pos h]
    · rw [if_neg h]
      rfl
  | succ n ih =>
    intro p
    by_cases h : (0.97 : ℚ) ≤ va (step p)
    · exact ⟨1, Nat.le_refl 1, by rw [digitLoop, if_pos h, Function.iterate_one]⟩
    · obtain ⟨k, hk, heq⟩ := ih (step p)
      refine ⟨k + 1, Nat.le_succ_of_le hk, ?_⟩
      rw [digitLoop, if_neg h, heq, Function.iterate_succ_apply]

lemma langLoop_iterate (va : LangParams → ℚ) (step : LangParams → LangParams) :
    ∀ (n : ℕ) (p q : LangParams), langLoop va step n p = some q →
      ∃ k, 1 ≤ k ∧ q = step^[k] p := by
  intro n
  induction n with
  | zero => intro p q h; exact absurd h (by rw [langLoop]; simp)
  | succ n ih =>
    intro p q h
    rw [langLoop] at h
    by_cases hva : (0.82 : ℚ) ≤ va (step p)
    · rw [if_pos hva] at h
      exact ⟨1, Nat.le_refl 1, by rw [Function.iterate_one, ← Option.some_inj.mp h]⟩
    · rw [if_neg hva] at h
      obtain ⟨k, hk, rfl⟩ := ih (step p) q h
      exact ⟨k + 1, Nat.le_succ_of_le hk, (Function.iterate_succ_apply step k p).symm⟩

/-- Claim C10: in both `DigitClassificationModel.train` and
`LanguageIDModel.train` the validation-accuracy check happens only after
a completed epoch: whatever the accuracy function (in particular even
when the initial parameters already meet the threshold), the digit loop
with positive fuel performs `k ≥ 1` epochs and returns the `k`-fold
epoch iterate, and the language loop can only return a `k ≥ 1`-fold
epoch iterate of its starting parameters. -/
theorem train_at_least_one_epoch :
    (∀ (va : RegParams → ℚ) (step : RegParams → RegParams) (n : ℕ) (p : RegParams),
        ∃ k, 1 ≤ k ∧ digitLoop va step (n + 1) p = (step^[k] p, k)) ∧
    (∀ (va : LangParams → ℚ) (step : LangParams → LangParams) (n : ℕ)
        (p q : LangParams), langLoop va step n p = some q →
        ∃ k, 1 ≤ k ∧ q = step^[k] p) :=
  ⟨fun va step n p => digitLoop_iterate va step n p,
   fun va step n p q h => langLoop_iterate va step n p q h⟩

/-- Witness for C10 at concrete inputs: with constant accuracy `1`
(already above both thresholds before training) the language loop still
returns only after applying the epoch step at least once. -/
theorem train_at_least_one_epoch_witness :
    ∃ k, 1 ≤ k ∧ (⟨[[(3 : ℚ)]], [], []⟩ : LangParams) =
      (fun _q : LangParams => ⟨[[(3 : ℚ)]], [], []⟩)^[k] ⟨[], [], []⟩ :=
  train_at_least_one_epoch.2 (fun _ => 1) _ 1 ⟨[], [], []⟩ _
    (by rw [langLoop]; norm_num)

/-! ## Parameter.update (external `nn` library, C8) -/

lemma vecAdd_scaleVec_zero : ∀ (r d : Vec), d.length = r.length →
    vecAdd r (scaleVec 0 d) = r := by
  intro r
  induction r with
  | nil => intro d _; rfl
  | cons a r ih =>
    intro d hd
    cases d with
    | nil => exact absurd hd (by simp)
    | cons x d =>
      rw [scaleVec, List.map_cons, vecAdd, List.zipWith_cons_cons, zero_mul, add_zero]
      exact congrArg (a :: ·) (ih d (by simpa using hd))

/-- Claim C8: `Parameter.update` with direction `d` and step size `s`
maps the parameter to `parameter + s * d`; in particular, with step size
`s = 0` it leaves any parameter unchanged, for every direction of
matching shape. -/
lemma addMat_smulMat_zero : ∀ (p : Mat) (m n : ℕ) (d : Mat),
    isMat m n p → isMat m n d → addMat p (smulMat 0 d) = p := by
  intro p
  induction p with
  | nil => intro m n d _ _; rfl
  | cons r p ih =>
    intro m n d hp hd
    cases d with
    | nil => exact absurd (hp.1.trans hd.1.symm) (by simp)
    | cons x d =>
      cases m with
      | zero => exact absurd hp.1 (by simp)
      | succ m =>
        simp only [smulMat, List.map_cons, addMat, List.zipWith_cons_cons]
        rw [vecAdd_scaleVec_zero r x
          ((hd.2 x (List.mem_cons_self x d)).trans (hp.2 r (List.mem_cons_self r p)).symm)]
        refine congrArg (r :: ·) ?_
        have := ih m n d
          ⟨by simpa using hp.1, fun t ht => hp.2 t (List.mem_cons_of_mem _ ht)⟩
          ⟨by simpa using hd.1, fun t ht => hd.2 t (List.mem_cons_of_mem _ ht)⟩
        simpa [addMat, smulMat] using this

theorem parameter_update_spec :
    (∀ (p d : Mat) (s : ℚ), updateMat p d s = addMat p (smulMat s d)) ∧
    (∀ (m n : ℕ) (p d : Mat), isMat m n p → isMat m n d → updateMat p d 0 = p) := by
  refine ⟨fun p d s => rfl, ?_⟩
  intro m n p d hp hd
  rw [updateMat]
  exact addMat_smulMat_zero p m n d hp hd

/-- Witness for C8 at a concrete input: a `2 × 2` parameter is unchanged
by a zero-step update along a same-shape direction. -/
theorem parameter_update_spec_witness :
    updateMat [[(1 : ℚ), 2], [3, 4]] [[(5 : ℚ), 6], [7, 8]] 0 =
      [[(1 : ℚ), 2], [3, 4]] :=
  parameter_update_spec.2 2 2 _ _
    (by constructor <;> simp [isMat])
    (by constructor <;> simp [isMat])

end NNModels
